import Mathlib

/-!
Verification of `jenkins_plugin_downloader.py`.

The Python program is shallowly embedded below.  Pure parts (dependency
resolution, mirror arithmetic) become Lean functions; the stateful download
engine becomes explicit state passing over an `OrchState` record, with the
network abstracted as an oracle `net : Nat → AttemptSpec` giving, for the
k-th HTTP GET issued by the process, what the connection delivers.  The
unbounded `while True:` loop and the unguarded recursion of
`get_plugin_dependencies` are metered by a `fuel : Nat` argument: a result
`none` means the source runs longer than `fuel` iterations (in particular,
`none` for every fuel means the source diverges), `some r` means the source
terminates with outcome `r`.
-/

/-- Dependency entry of a plugin in the update-center data: the JSON object
`\x7b "name": ..., "optional": ... \x7d` read at lines 45-47 of the source. -/
structure DependencyRef where
  name : String
  optional : Bool
deriving DecidableEq, Repr

/-- Metadata record of one plugin in `plugins_data`: its `version` field
(line 63/105) and its `dependencies` list (line 44; a missing
`dependencies` key is represented by the empty list). -/
structure PluginRecord where
  version : String
  dependencies : List DependencyRef
deriving DecidableEq, Repr

/-- The `self.plugins_data` mapping, plugin name to record, modelled as an
association list (Python dict keys are unique; lookup takes the first hit). -/
def Catalog : Type := List (String × PluginRecord)

/-- Dictionary lookup `self.plugins_data[name]` / `name in self.plugins_data`. -/
def catFind (cat : Catalog) (name : String) : Option PluginRecord :=
  match cat with
  | [] => none
  | (k, v) :: rest => if k = name then some v else catFind rest name

/-- Inner loop of `get_plugin_dependencies` (lines 44-49): walk the
dependency list, skip optional entries, and for each required entry append
its name followed by the recursively resolved sub-dependencies.  The
recursive call is abstracted as `recur` so that the outer function can
supply itself at smaller fuel. -/
def depsLoop (recur : String → Option (List String)) :
    List DependencyRef → Option (List String)
  | [] => some []
  | dep :: rest =>
    if dep.optional then depsLoop recur rest
    else
      match recur dep.name with
      | none => none
      | some sub =>
        match depsLoop recur rest with
        | none => none
        | some more => some (dep.name :: (sub ++ more))

/-- `get_plugin_dependencies` (lines 35-51), metered by recursion depth
`fuel`.  A plugin absent from the catalog yields `[]` (lines 37-38); an
entry found in the catalog yields the dependency walk of `depsLoop`,
deduplicated on return as by `list(set(dependencies))` (line 51). -/
def get_plugin_dependencies (cat : Catalog) : Nat → String → Option (List String)
  | 0, _ => none
  | fuel + 1, name =>
    match catFind cat name with
    | none => some []
    | some plugin =>
      (depsLoop (fun n => get_plugin_dependencies cat fuel n) plugin.dependencies).map
        List.dedup

/-- Non-optional dependency edge of the catalog: `x`'s record lists `y` as a
required dependency. -/
def depEdge (cat : Catalog) (x y : String) : Prop :=
  ∃ r, catFind cat x = some r ∧ ∃ d ∈ r.dependencies, d.optional = false ∧ d.name = y

example :
    get_plugin_dependencies
      [("A", ⟨"1.0", [⟨"B", false⟩, ⟨"C", true⟩]⟩), ("B", ⟨"2.0", []⟩)] 3 "A"
      = some ["B"] := by decide

example :
    get_plugin_dependencies
      [("A", ⟨"1.0", [⟨"B", false⟩]⟩), ("B", ⟨"1.0", [⟨"A", false⟩]⟩)] 5 "A"
      = none := by decide

/-- The fixed mirror list `MIRROR_URLS` (lines 12-17 of the source). -/
def MIRROR_URLS : List String :=
  ["https://mirrors.tuna.tsinghua.edu.cn/jenkins/plugins",
   "https://mirrors.aliyun.com/jenkins/plugins",
   "https://updates.jenkins.io/download/plugins",
   "https://mirrors.jenkins.io/plugins"]

/-- Number of mirrors, `len(self.MIRROR_URLS)`. -/
def numMirrors : Nat := MIRROR_URLS.length

/-- `_try_next_mirror` (lines 93-96): advance the current mirror index
modulo the list length and report `true` while the new index is nonzero
(the source's `self.current_mirror_index != 0`).  Returns the new index
paired with the reported flag. -/
def try_next_mirror (nMirrors idx : Nat) : Nat × Bool :=
  let idx' := (idx + 1) % nMirrors
  (idx', idx' != 0)

/-- `_get_download_url` (lines 88-91): join the currently selected mirror
base with the plugin name, version and fixed `.hpi` suffix. -/
def get_download_url (idx : Nat) (plugin_name version : String) : String :=
  (MIRROR_URLS.getD idx "") ++ "/" ++ plugin_name ++ "/" ++ version ++ "/" ++
    plugin_name ++ ".hpi"

/-- One chunk delivered by `response.iter_content` (line 129): its bytes
`data`, and the outcome of the wall-clock test at line 136 after this chunk
was written — `none` when less than a second has elapsed since the last
speed check, `some slow` when a one-second window elapsed, with `slow`
recording whether the measured speed at line 138 was below 1024 B/s. -/
structure NetChunk where
  data : List Nat
  check : Option Bool
deriving DecidableEq, Repr

/-- Behaviour of one HTTP GET of the download loop: either the request or
status check fails outright (`requests.get` raising, or
`raise_for_status`, lines 112-113), or a stream is opened, carrying the
declared `content-length` header if any (line 115), the chunk sequence the
connection would deliver, and whether the connection dies with an exception
after those chunks instead of ending normally. -/
inductive AttemptSpec where
  | hardFailure : AttemptSpec
  | stream (contentLength : Option Nat) (chunks : List NetChunk)
      (midFailure : Bool) : AttemptSpec
deriving DecidableEq, Repr

/-- How the chunk loop of lines 129-144 ends. -/
inductive StreamEnd where
  /-- the `for` loop consumed every chunk the connection delivered -/
  | ended : StreamEnd
  /-- slow-speed branch, `_try_next_mirror` returned `true`: `break` at
  line 142 with the given new mirror index -/
  | slowBreak (newMirror : Nat) : StreamEnd
  /-- slow-speed branch, `_try_next_mirror` returned `false`: the `raise`
  at line 141 fires inside the `try`; the index has wrapped to the given
  value (always 0) -/
  | slowRaise (newMirror : Nat) : StreamEnd
deriving DecidableEq, Repr

/-- The chunk loop of lines 129-144: append each chunk to the destination
file, grow the byte counter, and on an elapsed one-second window with speed
below 1024 B/s advance the mirror and either `break` or `raise`.  Returns
the file contents written, the final byte counter, and how the loop ended. -/
def processChunks (nMirrors : Nat) :
    List NetChunk → List Nat → Nat → Nat → List Nat × Nat × StreamEnd
  | [], file, size, _ => (file, size, .ended)
  | c :: rest, file, size, m =>
    let file' := file ++ c.data
    let size' := size + c.data.length
    match c.check with
    | some true =>
      let (m', ok) := try_next_mirror nMirrors m
      if ok then (file', size', .slowBreak m')
      else (file', size', .slowRaise m')
    | _ => processChunks nMirrors rest file' size' m

/-- Outcome of one iteration of the `while True:` loop of lines 109-152,
carrying the mirror index as left by the iteration and the destination
file's contents. -/
inductive IterResult where
  /-- the `break` at line 147: `downloaded_size == total_size` -/
  | success (mirror : Nat) (file : List Nat) : IterResult
  /-- the loop runs again (retry) -/
  | again (mirror : Nat) (file : List Nat) : IterResult
  /-- the `raise` at line 152 inside the `except` handler propagates:
  the whole fetch fails -/
  | fatal (mirror : Nat) : IterResult
deriving DecidableEq, Repr

/-- One iteration of the download `while` loop (lines 109-152) at mirror
index `m`, given what the network delivers for this GET and the
destination file's previous contents `oldFile`.  A `stream` attempt opens
the file in `'wb'` mode (line 121), truncating it, so `processChunks`
starts from the empty file; a hard failure at the GET itself leaves the
file untouched.  The `raise` at line 141 fires inside the `try`, so it is
caught by the `except` at line 149, which advances the mirror once more. -/
def runIter (nMirrors : Nat) (spec : AttemptSpec) (m : Nat)
    (oldFile : List Nat) : IterResult :=
  match spec with
  | .hardFailure =>
    let (m', ok) := try_next_mirror nMirrors m
    if ok then .again m' oldFile else .fatal m'
  | .stream contentLength chunks midFailure =>
    let total_size := contentLength.getD 0
    match processChunks nMirrors chunks [] 0 m with
    | (file, size, .ended) =>
      if midFailure then
        let (m', ok) := try_next_mirror nMirrors m
        if ok then .again m' file else .fatal m'
      else if size = total_size then .success m file
      else .again m file
    | (file, size, .slowBreak m') =>
      if size = total_size then .success m' file else .again m' file
    | (file, _, .slowRaise m0) =>
      let (m', ok) := try_next_mirror nMirrors m0
      if ok then .again m' file else .fatal m'

/-- Error taxonomy surfaced by the downloader. -/
inductive DLErr where
  /-- `ValueError("Plugin ... not found in update center")`, line 59 -/
  | notFound (name : String) : DLErr
  /-- uncaught `KeyError` from `self.plugins_data[plugin_name]`, line 103 -/
  | keyError (name : String) : DLErr
  /-- `Exception` "all mirror sites failed", line 152, escaping the loop -/
  | allMirrorsFailed : DLErr
deriving DecidableEq, Repr

/-- Mutable state of a `JenkinsPluginDownloader` instance relevant to the
downloads: the current mirror index (line 23), the `downloaded_plugins`
set as a list in insertion order (line 22; insertion order is the order in
which downloads complete), and a counter of HTTP GETs issued so far, used
to index the network oracle. -/
structure OrchState where
  mirrorIndex : Nat
  downloaded : List String
  attempts : Nat
deriving DecidableEq, Repr

/-- The `while True:` loop of `_download_single_plugin` (lines 109-152),
metered by `fuel` iterations.  Each iteration issues one GET, consulting
the oracle `net` at the current attempt counter. -/
def downloadLoop (net : Nat → AttemptSpec) (nMirrors : Nat) :
    Nat → OrchState → List Nat → Option (Except DLErr (OrchState × List Nat))
  | 0, _, _ => none
  | fuel + 1, st, file =>
    let spec := net st.attempts
    let st' : OrchState := { st with attempts := st.attempts + 1 }
    match runIter nMirrors spec st.mirrorIndex file with
    | .success m f => some (.ok ({ st' with mirrorIndex := m }, f))
    | .again m f => downloadLoop net nMirrors fuel { st' with mirrorIndex := m } f
    | .fatal _ => some (.error (.allMirrorsFailed))

/-- `_download_single_plugin` (lines 98-154).  Returns the updated state
together with the final contents of `output_path` — `none` when the early
return at lines 100-101 fired and the file was never touched.  `file0` is
whatever the destination file held before the call. -/
def download_single_plugin (cat : Catalog) (net : Nat → AttemptSpec)
    (nMirrors fuel : Nat) (plugin_name : String) (st : OrchState)
    (file0 : List Nat) : Option (Except DLErr (OrchState × Option (List Nat))) :=
  if plugin_name ∈ st.downloaded then some (.ok (st, none))
  else
    match catFind cat plugin_name with
    | none => some (.error (.keyError plugin_name))
    | some _plugin =>
      match downloadLoop net nMirrors fuel st file0 with
      | none => none
      | some (.error e) => some (.error e)
      | some (.ok (st', f)) =>
        some (.ok ({ st' with downloaded := st'.downloaded ++ [plugin_name] }, some f))

/-- The dependency download loop of `download_plugin` (lines 78-81): for
each dependency in order, skip it when already downloaded, otherwise run
`_download_single_plugin` on it. -/
def downloadDeps (cat : Catalog) (net : Nat → AttemptSpec) (nMirrors fuel : Nat) :
    List String → OrchState → Option (Except DLErr OrchState)
  | [], st => some (.ok st)
  | dep :: rest, st =>
    if dep ∈ st.downloaded then downloadDeps cat net nMirrors fuel rest st
    else
      match download_single_plugin cat net nMirrors fuel dep st [] with
      | none => none
      | some (.error e) => some (.error e)
      | some (.ok (st', _)) => downloadDeps cat net nMirrors fuel rest st'

/-- `download_plugin` (lines 53-86) with the catalog already populated
(`fetch_update_center` is an external collaborator).  `fuelR` meters the
dependency resolution, `fuelD` each single download's retry loop. -/
def download_plugin (cat : Catalog) (net : Nat → AttemptSpec)
    (nMirrors fuelD fuelR : Nat) (plugin_name : String)
    (st : OrchState) : Option (Except DLErr OrchState) :=
  match catFind cat plugin_name with
  | none => some (.error (.notFound plugin_name))
  | some _plugin =>
    match get_plugin_dependencies cat fuelR plugin_name with
    | none => none
    | some dependencies =>
      match downloadDeps cat net nMirrors fuelD dependencies st with
      | none => none
      | some (.error e) => some (.error e)
      | some (.ok st') =>
        if plugin_name ∈ st'.downloaded then some (.ok st')
        else
          match download_single_plugin cat net nMirrors fuelD plugin_name st' [] with
          | none => none
          | some (.error e) => some (.error e)
          | some (.ok (st'', _)) => some (.ok st'')

example :
    download_plugin [("A", ⟨"1.0", [⟨"B", false⟩]⟩), ("B", ⟨"2.0", []⟩)]
      (fun _ => .stream (some 1) [⟨[3], none⟩] false) 4 2 2 "A" ⟨0, [], 0⟩
      = some (.ok ⟨0, ["B", "A"], 2⟩) := rfl

/-- Iterated `_try_next_mirror`: perform `k` consecutive advances from
index `idx`, collecting the reported flags. -/
def advanceSeq (nMirrors : Nat) : Nat → Nat → Nat × List Bool
  | idx, 0 => (idx, [])
  | idx, k + 1 =>
    let (idx', b) := try_next_mirror nMirrors idx
    let (idxF, bs) := advanceSeq nMirrors idx' k
    (idxF, b :: bs)

/-- Test catalog: `A` requires `B`, optionally `C`; `B` has no
dependencies (the end-to-end scenario of the specification). -/
def catAB : Catalog :=
  [("A", ⟨"1.0", [⟨"B", false⟩, ⟨"C", true⟩]⟩), ("B", ⟨"2.0", []⟩)]

/-- Test catalog with a two-node dependency cycle. -/
def catCycle : Catalog :=
  [("A", ⟨"1.0", [⟨"B", false⟩]⟩), ("B", ⟨"1.0", [⟨"A", false⟩]⟩)]

/-- Test catalog whose root has a required dependency absent from the
catalog mapping. -/
def catMissing : Catalog := [("A", ⟨"1.0", [⟨"B", false⟩]⟩)]

/-- Test catalog with a single dependency-free plugin. -/
def catSingle : Catalog := [("A", ⟨"1.0", []⟩)]

/-- Network oracle: every GET yields a healthy stream of one 3-byte chunk
matching the declared content length. -/
def netGood : Nat → AttemptSpec := fun _ => .stream (some 3) [⟨[7, 7, 7], none⟩] false

/-- Network oracle: every GET yields 7 bytes of a declared 1000 and then a
one-second window measuring below 1024 B/s (sustained slowness on every
mirror). -/
def netSlow : Nat → AttemptSpec := fun _ => .stream (some 1000) [⟨[7], some true⟩] false

/-- Network oracle: every GET yields a 3-byte body with no declared
content length, the stream ending normally. -/
def netNoLength : Nat → AttemptSpec := fun _ => .stream none [⟨[7, 7, 7], none⟩] false

/-- Fresh downloader state: mirror index 0, nothing downloaded, no GET
issued yet. -/
def st0 : OrchState := ⟨0, [], 0⟩

lemma catFind_mem {cat : Catalog} {name : String} {p : PluginRecord}
    (h : catFind cat name = some p) : name ∈ cat.map Prod.fst := by
  induction cat with
  | nil => simp [catFind] at h
  | cons kv rest ih =>
    rw [catFind] at h
    by_cases hk : kv.1 = name
    · simp [hk]
    · simp only [hk, if_false] at h
      simp [ih h]

lemma depsLoop_none {recur : String → Option (List String)}
    {deps : List DependencyRef} {d : DependencyRef} (hd : d ∈ deps)
    (hopt : d.optional = false) (hrec : recur d.name = none) :
    depsLoop recur deps = none := by
  induction deps with
  | nil => cases hd
  | cons x rest ih =>
    rcases List.mem_cons.mp hd with rfl | hd'
    · rw [depsLoop]
      simp [hopt, hrec]
    · rw [depsLoop]
      by_cases hx : x.optional
      · simp [hx, ih hd']
      · simp only [hx, Bool.false_eq_true, if_false]
        cases hx' : recur x.name with
        | none => rfl
        | some sub => simp [ih hd']

lemma cycle_divergence {cat : Catalog} :
    ∀ (fuel : Nat) (a : String), Relation.TransGen (depEdge cat) a a →
      get_plugin_dependencies cat fuel a = none := by
  intro fuel
  induction fuel with
  | zero => intro a _; rfl
  | succ fuel ih =>
    intro a ha
    obtain ⟨b, hab, hba⟩ := Relation.TransGen.head'_iff.mp ha
    have hbb : Relation.TransGen (depEdge cat) b b := Relation.TransGen.tail' hba hab
    obtain ⟨r, hr, d, hd, hopt, hname⟩ := hab
    rw [get_plugin_dependencies, hr]
    have : depsLoop (fun n => get_plugin_dependencies cat fuel n) r.dependencies = none := by
      apply depsLoop_none hd hopt
      simp only [hname, ih b hbb]
    simp [this]

lemma getDeps_succ_none {cat : Catalog} {fuel : Nat} {name : String}
    (hfind : catFind cat name = none) :
    get_plugin_dependencies cat (fuel + 1) name = some [] := by
  rw [get_plugin_dependencies, hfind]

lemma getDeps_succ_eq {cat : Catalog} {fuel : Nat} {name : String}
    {plugin : PluginRecord} (hfind : catFind cat name = some plugin) :
    get_plugin_dependencies cat (fuel + 1) name =
      (depsLoop (fun n => get_plugin_dependencies cat fuel n)
        plugin.dependencies).map List.dedup := by
  rw [get_plugin_dependencies, hfind]

lemma getDeps_succ_inv {cat : Catalog} {fuel : Nat} {name : String}
    {l : List String}
    (h : get_plugin_dependencies cat (fuel + 1) name = some l) :
    (catFind cat name = none ∧ l = []) ∨
    (∃ plugin l', catFind cat name = some plugin ∧
      depsLoop (fun n => get_plugin_dependencies cat fuel n) plugin.dependencies
        = some l' ∧ l = l'.dedup) := by
  rw [get_plugin_dependencies] at h
  split at h
  case h_1 hfind =>
    exact Or.inl ⟨hfind, (Option.some_inj.mp h).symm⟩
  case h_2 plugin hfind =>
    cases hloop : depsLoop (fun n => get_plugin_dependencies cat fuel n)
        plugin.dependencies with
    | none => rw [hloop] at h; simp at h
    | some l' =>
      rw [hloop] at h
      simp only [Option.map_some'] at h
      exact Or.inr ⟨plugin, l', hfind, hloop, (Option.some_inj.mp h).symm⟩

lemma depsLoop_sound {recur : String → Option (List String)}
    {deps : List DependencyRef} {l : List String}
    (h : depsLoop recur deps = some l) :
    ∀ y ∈ l, ∃ d ∈ deps, d.optional = false ∧
      (y = d.name ∨ ∃ sub, recur d.name = some sub ∧ y ∈ sub) := by
  induction deps generalizing l with
  | nil =>
    rw [depsLoop] at h
    cases h
    intro y hy; cases hy
  | cons x rest ih =>
    rw [depsLoop] at h
    by_cases hx : x.optional
    · simp only [hx, if_true] at h
      intro y hy
      obtain ⟨d, hd, hprops⟩ := ih h y hy
      exact ⟨d, List.mem_cons_of_mem _ hd, hprops⟩
    · simp only [hx, Bool.false_eq_true, if_false] at h
      cases hsub : recur x.name with
      | none => rw [hsub] at h; cases h
      | some sub =>
        rw [hsub] at h
        cases hmore : depsLoop recur rest with
        | none => rw [hmore] at h; cases h
        | some more =>
          rw [hmore] at h
          cases h
          intro y hy
          rcases List.mem_cons.mp hy with rfl | hy'
          · exact ⟨x, List.mem_cons_self _ _, Bool.eq_false_iff.mpr hx, Or.inl rfl⟩
          · rcases List.mem_append.mp hy' with hsub' | hmore'
            · exact ⟨x, List.mem_cons_self _ _, Bool.eq_false_iff.mpr hx,
                Or.inr ⟨sub, hsub, hsub'⟩⟩
            · obtain ⟨d, hd, hprops⟩ := ih hmore y hmore'
              exact ⟨d, List.mem_cons_of_mem _ hd, hprops⟩

lemma get_plugin_dependencies_sound {cat : Catalog} :
    ∀ (fuel : Nat) (name : String) (l : List String),
      get_plugin_dependencies cat fuel name = some l →
      ∀ y ∈ l, Relation.TransGen (depEdge cat) name y := by
  intro fuel
  induction fuel with
  | zero => intro name l h; cases h
  | succ fuel ih =>
    intro name l h y hy
    rcases getDeps_succ_inv h with ⟨_, rfl⟩ | ⟨plugin, l', hfind, hloop, rfl⟩
    · cases hy
    · have hy' : y ∈ l' := List.mem_dedup.mp hy
      obtain ⟨d, hd, hopt, hcase⟩ := depsLoop_sound hloop y hy'
      have hedge : depEdge cat name d.name := ⟨plugin, hfind, d, hd, hopt, rfl⟩
      rcases hcase with rfl | ⟨sub, hsub, hysub⟩
      · exact Relation.TransGen.single hedge
      · exact Relation.TransGen.head hedge (ih d.name sub hsub y hysub)

lemma depsLoop_forces {recur : String → Option (List String)}
    {deps : List DependencyRef} {l : List String}
    (h : depsLoop recur deps = some l) :
    ∀ d ∈ deps, d.optional = false →
      ∃ sub, recur d.name = some sub ∧ d.name ∈ l ∧ ∀ y ∈ sub, y ∈ l := by
  induction deps generalizing l with
  | nil => intro d hd; cases hd
  | cons x rest ih =>
    rw [depsLoop] at h
    intro d hd hopt
    by_cases hx : x.optional
    · simp only [hx, if_true] at h
      rcases List.mem_cons.mp hd with rfl | hd'
      · rw [hx] at hopt; cases hopt
      · exact ih h d hd' hopt
    · simp only [hx, Bool.false_eq_true, if_false] at h
      cases hsub : recur x.name with
      | none => rw [hsub] at h; cases h
      | some sub =>
        rw [hsub] at h
        cases hmore : depsLoop recur rest with
        | none => rw [hmore] at h; cases h
        | some more =>
          rw [hmore] at h
          cases h
          rcases List.mem_cons.mp hd with rfl | hd'
          · exact ⟨sub, hsub, List.mem_cons_self _ _,
              fun y hy => List.mem_cons_of_mem _ (List.mem_append_left _ hy)⟩
          · obtain ⟨sub', hsub', hmem, hsubset⟩ := ih hmore d hd' hopt
            exact ⟨sub', hsub', List.mem_cons_of_mem _ (List.mem_append_right _ hmem),
              fun y hy => List.mem_cons_of_mem _ (List.mem_append_right _ (hsubset y hy))⟩

lemma get_plugin_dependencies_complete {cat : Catalog} {y name : String}
    (hreach : Relation.TransGen (depEdge cat) name y) :
    ∀ (fuel : Nat) (l : List String),
      get_plugin_dependencies cat fuel name = some l → y ∈ l := by
  induction hreach using Relation.TransGen.head_induction_on with
  | base hedge =>
    intro fuel l h
    obtain ⟨r, hr, d, hd, hopt, hname⟩ := hedge
    cases fuel with
    | zero => cases h
    | succ fuel =>
      rcases getDeps_succ_inv h with ⟨hnone, rfl⟩ | ⟨plugin, l', hfind, hloop, rfl⟩
      · rw [hr] at hnone; cases hnone
      · rw [hr] at hfind
        cases hfind
        obtain ⟨sub, _, hmem, _⟩ := depsLoop_forces hloop d hd hopt
        exact List.mem_dedup.mpr (hname ▸ hmem)
  | ih hedge _ ihc =>
    intro fuel l h
    obtain ⟨r, hr, d, hd, hopt, hname⟩ := hedge
    cases fuel with
    | zero => cases h
    | succ fuel =>
      rcases getDeps_succ_inv h with ⟨hnone, rfl⟩ | ⟨plugin, l', hfind, hloop, rfl⟩
      · rw [hr] at hnone; cases hnone
      · rw [hr] at hfind
        cases hfind
        obtain ⟨sub, hsub, _, hsubset⟩ := depsLoop_forces hloop d hd hopt
        have hy : y ∈ sub := ihc fuel sub (hname ▸ hsub)
        exact List.mem_dedup.mpr (hsubset y hy)

lemma get_plugin_dependencies_nodup {cat : Catalog} {fuel : Nat}
    {name : String} {l : List String}
    (h : get_plugin_dependencies cat fuel name = some l) : l.Nodup := by
  cases fuel with
  | zero => cases h
  | succ fuel =>
    rcases getDeps_succ_inv h with ⟨_, rfl⟩ | ⟨plugin, l', _, _, rfl⟩
    · exact List.nodup_nil
    · exact List.nodup_dedup l'

lemma depsLoop_isSome {recur : String → Option (List String)}
    {deps : List DependencyRef}
    (h : ∀ d ∈ deps, d.optional = false → (recur d.name).isSome) :
    (depsLoop recur deps).isSome := by
  induction deps with
  | nil => rw [depsLoop]; rfl
  | cons x rest ih =>
    rw [depsLoop]
    by_cases hx : x.optional
    · simp only [hx, if_true]
      exact ih fun d hd => h d (List.mem_cons_of_mem _ hd)
    · simp only [hx, Bool.false_eq_true, if_false]
      have hxs := h x (List.mem_cons_self _ _) (Bool.eq_false_iff.mpr hx)
      obtain ⟨sub, hsub⟩ := Option.isSome_iff_exists.mp hxs
      rw [hsub]
      have hrest := ih fun d hd => h d (List.mem_cons_of_mem _ hd)
      obtain ⟨more, hmore⟩ := Option.isSome_iff_exists.mp hrest
      rw [hmore]
      rfl

lemma get_plugin_dependencies_total_aux {cat : Catalog}
    (hacyc : ∀ x, ¬ Relation.TransGen (depEdge cat) x x) :
    ∀ (fuel : Nat) (name : String) (s : Finset String), s.card < fuel →
      (∀ k ∈ cat.map Prod.fst, Relation.ReflTransGen (depEdge cat) name k → k ∈ s) →
      (get_plugin_dependencies cat fuel name).isSome := by
  intro fuel
  induction fuel with
  | zero => intro name s hcard; omega
  | succ fuel ih =>
    intro name s hcard hcover
    cases hfind : catFind cat name with
    | none => rw [getDeps_succ_none hfind]; rfl
    | some plugin =>
      rw [getDeps_succ_eq hfind]
      have hloop : (depsLoop (fun n => get_plugin_dependencies cat fuel n)
          plugin.dependencies).isSome := by
        apply depsLoop_isSome
        intro d hd hopt
        have hnamekey : name ∈ cat.map Prod.fst := catFind_mem hfind
        have hnames : name ∈ s := hcover name hnamekey Relation.ReflTransGen.refl
        have hedge : depEdge cat name d.name := ⟨plugin, hfind, d, hd, hopt, rfl⟩
        apply ih d.name (s.erase name)
        · have h1 : (s.erase name).card = s.card - 1 := Finset.card_erase_of_mem hnames
          have h2 : 0 < s.card := Finset.card_pos.mpr ⟨name, hnames⟩
          omega
        · intro k hk hreach
          rw [Finset.mem_erase]
          constructor
          · rintro rfl
            exact hacyc _ (Relation.TransGen.head' hedge hreach)
          · exact hcover k hk (Relation.ReflTransGen.head hedge hreach)
      obtain ⟨l', hl'⟩ := Option.isSome_iff_exists.mp hloop
      rw [hl']
      rfl

lemma get_plugin_dependencies_total {cat : Catalog}
    (hacyc : ∀ x, ¬ Relation.TransGen (depEdge cat) x x) (name : String) :
    ∃ fuel l, get_plugin_dependencies cat fuel name = some l := by
  have h := get_plugin_dependencies_total_aux hacyc
    ((cat.map Prod.fst).toFinset.card + 1) name (cat.map Prod.fst).toFinset
    (Nat.lt_succ_self _) (fun k hk _ => List.mem_toFinset.mpr hk)
  obtain ⟨l, hl⟩ := Option.isSome_iff_exists.mp h
  exact ⟨_, l, hl⟩

lemma depEdge_catAB {a b : String} (h : depEdge catAB a b) : a = "A" ∧ b = "B" := by
  obtain ⟨r, hr, d, hd, hopt, hname⟩ := h
  by_cases h1 : a = "A"
  · subst h1
    have hrA : catFind catAB "A" = some ⟨"1.0", [⟨"B", false⟩, ⟨"C", true⟩]⟩ := rfl
    rw [hrA] at hr
    cases hr
    simp only [List.mem_cons, List.not_mem_nil, or_false] at hd
    rcases hd with rfl | rfl
    · exact ⟨rfl, hname.symm ▸ rfl⟩
    · cases hopt
  · by_cases h2 : a = "B"
    · subst h2
      have hrB : catFind catAB "B" = some ⟨"2.0", []⟩ := rfl
      rw [hrB] at hr
      cases hr
      cases hd
    · have : catFind catAB a = none := by
        simp [catFind, catAB, Ne.symm h1, Ne.symm h2]
      rw [this] at hr
      cases hr

lemma acyclic_catAB : ∀ x, ¬ Relation.TransGen (depEdge catAB) x x := by
  intro x h
  obtain ⟨c, hxc, hcx⟩ := Relation.TransGen.head'_iff.mp h
  obtain ⟨hxA, hcB⟩ := depEdge_catAB hxc
  subst hxA; subst hcB
  rcases Relation.ReflTransGen.cases_head hcx with heq | ⟨c', hc', _⟩
  · exact absurd heq (by decide)
  · exact absurd (depEdge_catAB hc').1 (by decide)

/-- C2: the specification requires `resolve(A)` on the cyclic catalog
`A → B → A` to terminate (with at least `B` in its result), but the source's
`get_plugin_dependencies` has no cycle guard: on `catCycle` the recursion
never bottoms out, so for every recursion-depth budget it is still running
(the Python process dies with a `RecursionError` instead of returning). -/
theorem C2_cycle_resolution_diverges :
    ∀ fuel : Nat, get_plugin_dependencies catCycle fuel "A" = none := by
  intro fuel
  apply cycle_divergence fuel
  have eAB : depEdge catCycle "A" "B" :=
    ⟨⟨"1.0", [⟨"B", false⟩]⟩, rfl, ⟨"B", false⟩, by simp, rfl, rfl⟩
  have eBA : depEdge catCycle "B" "A" :=
    ⟨⟨"1.0", [⟨"A", false⟩]⟩, rfl, ⟨"A", false⟩, by simp, rfl, rfl⟩
  exact Relation.TransGen.head eAB (Relation.TransGen.single eBA)

/-- C5: on an acyclic catalog, for any root present in it, the resolver
terminates (some recursion-depth budget suffices) and returns a
duplicate-free list whose members are exactly the identifiers reachable
from the root along non-optional dependency edges — the root itself
excluded, and nothing reachable only through optional edges included. -/
theorem C5_resolve_acyclic_reachable (cat : Catalog)
    (hacyc : ∀ x, ¬ Relation.TransGen (depEdge cat) x x) (root : String)
    (_hroot : (catFind cat root).isSome = true) :
    ∃ fuel l, get_plugin_dependencies cat fuel root = some l ∧ l.Nodup ∧
      root ∉ l ∧ ∀ y, y ∈ l ↔ Relation.TransGen (depEdge cat) root y := by
  obtain ⟨fuel, l, hl⟩ := get_plugin_dependencies_total hacyc root
  refine ⟨fuel, l, hl, get_plugin_dependencies_nodup hl, ?_, ?_⟩
  · intro hmem
    exact hacyc root (get_plugin_dependencies_sound fuel root l hl root hmem)
  · intro y
    exact ⟨fun hy => get_plugin_dependencies_sound fuel root l hl y hy,
      fun hr => get_plugin_dependencies_complete hr fuel l hl⟩

/-- Witness for C5 on the concrete acyclic catalog `catAB` with root `A`. -/
theorem C5_resolve_acyclic_reachable_witness :
    ∃ fuel l, get_plugin_dependencies catAB fuel "A" = some l ∧ l.Nodup ∧
      "A" ∉ l ∧ ∀ y, y ∈ l ↔ Relation.TransGen (depEdge catAB) "A" y :=
  C5_resolve_acyclic_reachable catAB acyclic_catAB "A" (by decide)

/-- C6: for an identifier absent from the catalog, the resolver treats it
as having no dependencies (lines 37-38: `resolve(X)` is the empty list for
any positive recursion budget), while requesting it as the root of
`download_plugin` fails up front with the not-found error of line 59 —
for every network behaviour and every fuel, so no download is attempted. -/
theorem C6_absent_identifier (cat : Catalog) (net : Nat → AttemptSpec)
    (nMirrors fuelD fuelR fuel : Nat) (X : String) (st : OrchState)
    (hX : catFind cat X = none) :
    get_plugin_dependencies cat (fuel + 1) X = some [] ∧
    download_plugin cat net nMirrors fuelD fuelR X st =
      some (.error (.notFound X)) := by
  refine ⟨getDeps_succ_none hX, ?_⟩
  rw [download_plugin, hX]

/-- Witness for C6: identifier `Z` is absent from `catAB`. -/
theorem C6_absent_identifier_witness :
    get_plugin_dependencies catAB 1 "Z" = some [] ∧
    download_plugin catAB netGood numMirrors 1 1 "Z" st0 =
      some (.error (.notFound "Z")) :=
  C6_absent_identifier catAB netGood numMirrors 1 1 0 "Z" st0 rfl

/-- C3, counterexample: the claim states that `advance()` reports `false`
exactly when the new index equals the index at which the current attempt
sequence began.  With the source's 4 mirrors and an attempt sequence
beginning at index 1, the third advance (from index `(1 + 2) % 4 = 3`)
wraps to 0 and reports `false`, although the new index 0 differs from the
attempt's starting index 1: the source (line 96) compares against 0, not
against the attempt's start. -/
theorem C3_attempt_start_counterexample :
    ¬ (∀ s k : Nat,
        ((try_next_mirror numMirrors ((s + k) % numMirrors)).2 = false ↔
          (try_next_mirror numMirrors ((s + k) % numMirrors)).1 = s)) := by
  intro h
  have h12 := h 1 2
  simp [try_next_mirror, numMirrors, MIRROR_URLS] at h12

/-- C3, amended: `_try_next_mirror` increments the index modulo the list
length and reports `false` exactly when the new index equals 0 (a wrap to
the start of the mirror LIST, regardless of where the attempt sequence
began); with the source's 4 mirrors and an attempt starting at index 0,
four consecutive advances report `true, true, true, false`. -/
theorem C3_advance_wraps_to_zero :
    (∀ nMirrors idx : Nat, 0 < nMirrors →
      ((try_next_mirror nMirrors idx).2 = false ↔
        (try_next_mirror nMirrors idx).1 = 0)) ∧
    advanceSeq numMirrors 0 4 = (0, [true, true, true, false]) := by
  constructor
  · intro n idx _
    simp [try_next_mirror]
  · decide

/-- Witness for C3's amended theorem at the source's 4 mirrors, index 3. -/
theorem C3_advance_wraps_to_zero_witness :
    0 < numMirrors ∧
      ((try_next_mirror numMirrors 3).2 = false ↔
        (try_next_mirror numMirrors 3).1 = 0) :=
  ⟨by decide, C3_advance_wraps_to_zero.1 numMirrors 3 (by decide)⟩

/-- C10: on `catMissing` (root `A` requires `B`, and `B` is absent from
the catalog), resolution includes the missing identifier `B` in its
result, and `download_plugin "A"` then reads `plugins_data["B"]`
unconditionally at line 103, raising an uncaught `KeyError` — whatever
the network does and whatever the retry budget, since the lookup precedes
any GET. -/
theorem C10_missing_dep_keyerror (net : Nat → AttemptSpec) (fuelD : Nat) :
    get_plugin_dependencies catMissing 2 "A" = some ["B"] ∧
    download_plugin catMissing net numMirrors fuelD 2 "A" st0 =
      some (.error (.keyError "B")) :=
  ⟨rfl, rfl⟩

lemma runIter_netSlow (m : Nat) (file : List Nat) :
    ∃ m', runIter 4 (netSlow 0) m file = .again m' [7] := by
  by_cases h : (m + 1) % 4 = 0
  · exact ⟨1, by simp [netSlow, runIter, processChunks, try_next_mirror, h]⟩
  · exact ⟨(m + 1) % 4, by simp [netSlow, runIter, processChunks, try_next_mirror, h]⟩

lemma downloadLoop_netSlow_none :
    ∀ (fuel : Nat) (st : OrchState) (file : List Nat),
      downloadLoop netSlow 4 fuel st file = none := by
  intro fuel
  induction fuel with
  | zero => intro st file; rfl
  | succ fuel ih =>
    intro st file
    obtain ⟨m', hit⟩ := runIter_netSlow st.mirrorIndex file
    rw [downloadLoop]
    have hsp : netSlow st.attempts = netSlow 0 := rfl
    simp only [hsp, hit]
    exact ih _ _

/-- C1, the code as written: with every mirror persistently slow (each GET
delivers a trickle and then a sub-1024 B/s one-second window), the fetch of
a single plugin NEVER terminates — for every iteration budget the retry
loop is still running.  The `raise` of line 141 that should end the fetch
once `_try_next_mirror` reports exhaustion fires inside the `try` block,
is caught by the `except` of line 149, which advances the mirror once more
and keeps cycling through mirrors 1..3 forever, instead of failing with
the terminal "all mirrors failed" error the specification requires. -/
theorem C1_speed_exhaustion_never_fails :
    ∀ fuel : Nat,
      download_single_plugin catSingle netSlow numMirrors fuel "A" st0 [] = none := by
  intro fuel
  show download_single_plugin catSingle netSlow 4 fuel "A" st0 [] = none
  rw [download_single_plugin]
  simp only [st0, catSingle, catFind]
  simp [downloadLoop_netSlow_none fuel]

lemma runIter_netNoLength (m : Nat) (file : List Nat) :
    runIter 4 (netNoLength 0) m file = .again m [7, 7, 7] := by
  simp [netNoLength, runIter, processChunks]

lemma downloadLoop_netNoLength_none :
    ∀ (fuel : Nat) (st : OrchState) (file : List Nat),
      downloadLoop netNoLength 4 fuel st file = none := by
  intro fuel
  induction fuel with
  | zero => intro st file; rfl
  | succ fuel ih =>
    intro st file
    rw [downloadLoop]
    have hsp : netNoLength st.attempts = netNoLength 0 := rfl
    simp only [hsp, runIter_netNoLength]
    exact ih _ _

/-- C4, the code as written: when the server declares no content length,
`total_size` defaults to 0 (line 115), so after a normal end of stream with
a non-empty body the completion test `downloaded_size == total_size`
(line 146) fails and the loop silently re-requests the same mirror —
forever.  The fetch never terminates, the identifier is never added to
`downloaded_plugins`, contradicting the specification's "no declared
length means end-of-stream is success". -/
theorem C4_no_content_length_never_completes :
    ∀ fuel : Nat,
      download_single_plugin catSingle netNoLength numMirrors fuel "A" st0 [] = none := by
  intro fuel
  show download_single_plugin catSingle netNoLength 4 fuel "A" st0 [] = none
  rw [download_single_plugin]
  simp only [st0, catSingle, catFind]
  simp [downloadLoop_netNoLength_none fuel]

lemma downloadLoop_downloaded {net : Nat → AttemptSpec} {nMirrors : Nat} :
    ∀ {fuel : Nat} {st st' : OrchState} {file f : List Nat},
      downloadLoop net nMirrors fuel st file = some (.ok (st', f)) →
      st'.downloaded = st.downloaded := by
  intro fuel
  induction fuel with
  | zero => intro st st' file f h; cases h
  | succ fuel ih =>
    intro st st' file f h
    rw [downloadLoop] at h
    cases hit : runIter nMirrors (net st.attempts) st.mirrorIndex file with
    | success m g =>
      simp only [hit, Option.some_inj, Except.ok.injEq, Prod.mk.injEq] at h
      obtain ⟨h1, _⟩ := h
      rw [← h1]
    | again m g =>
      simp only [hit] at h
      have h2 := ih h
      exact h2
    | fatal m =>
      simp only [hit] at h
      simp at h

lemma download_single_plugin_ok_inv {cat : Catalog} {net : Nat → AttemptSpec}
    {nMirrors fuel : Nat} {name : String} {st st' : OrchState}
    {file0 : List Nat} {f : Option (List Nat)}
    (h : download_single_plugin cat net nMirrors fuel name st file0 =
      some (.ok (st', f))) :
    (name ∈ st.downloaded ∧ st' = st ∧ f = none) ∨
    (name ∉ st.downloaded ∧ st'.downloaded = st.downloaded ++ [name]) := by
  rw [download_single_plugin] at h
  by_cases hmem : name ∈ st.downloaded
  · simp only [hmem, if_true, Option.some_inj, Except.ok.injEq, Prod.mk.injEq] at h
    obtain ⟨h1, h2⟩ := h
    exact Or.inl ⟨hmem, h1.symm, h2.symm⟩
  · simp only [hmem, if_false] at h
    refine Or.inr ⟨hmem, ?_⟩
    cases hfind : catFind cat name with
    | none => simp only [hfind] at h; simp at h
    | some p =>
      simp only [hfind] at h
      cases hloop : downloadLoop net nMirrors fuel st file0 with
      | none => simp only [hloop] at h; cases h
      | some r =>
        simp only [hloop] at h
        cases r with
        | error e => simp at h
        | ok pr =>
          obtain ⟨stL, fL⟩ := pr
          simp only [Option.some_inj, Except.ok.injEq, Prod.mk.injEq] at h
          obtain ⟨h1, _⟩ := h
          rw [← h1]
          simp [downloadLoop_downloaded hloop]

lemma download_single_plugin_mem {cat : Catalog} {net : Nat → AttemptSpec}
    {nMirrors fuel : Nat} {name : String} {st st' : OrchState}
    {file0 : List Nat} {f : Option (List Nat)}
    (h : download_single_plugin cat net nMirrors fuel name st file0 =
      some (.ok (st', f))) :
    name ∈ st'.downloaded ∧
      ∃ ext, st'.downloaded = st.downloaded ++ ext ∧ ∀ x ∈ ext, x = name := by
  rcases download_single_plugin_ok_inv h with ⟨hmem, rfl, _⟩ | ⟨hmem, heq⟩
  · exact ⟨hmem, [], by simp⟩
  · exact ⟨heq ▸ List.mem_append_right _ (List.mem_singleton_self _),
      [name], heq, by simp⟩

lemma downloadDeps_ok_inv {cat : Catalog} {net : Nat → AttemptSpec}
    {nMirrors fuel : Nat} :
    ∀ {deps : List String} {st st' : OrchState},
      downloadDeps cat net nMirrors fuel deps st = some (.ok st') →
      (∀ d ∈ deps, d ∈ st'.downloaded) ∧
      ∃ ext, st'.downloaded = st.downloaded ++ ext ∧ ∀ x ∈ ext, x ∈ deps := by
  intro deps
  induction deps with
  | nil =>
    intro st st' h
    rw [downloadDeps] at h
    simp only [Option.some_inj, Except.ok.injEq] at h
    cases h
    exact ⟨by simp, [], by simp⟩
  | cons d rest ih =>
    intro st st' h
    rw [downloadDeps] at h
    by_cases hmem : d ∈ st.downloaded
    · simp only [hmem, if_true] at h
      obtain ⟨hall, ext, hext, hsub⟩ := ih h
      refine ⟨?_, ext, hext, fun x hx => List.mem_cons_of_mem _ (hsub x hx)⟩
      intro d' hd'
      rcases List.mem_cons.mp hd' with rfl | hd''
      · rw [hext]; exact List.mem_append_left _ hmem
      · exact hall d' hd''
    · simp only [hmem, if_false] at h
      cases hsingle : download_single_plugin cat net nMirrors fuel d st [] with
      | none => simp only [hsingle] at h; cases h
      | some r =>
        simp only [hsingle] at h
        cases r with
        | error e => simp at h
        | ok pr =>
          obtain ⟨st1, f1⟩ := pr
          obtain ⟨hd1, ext1, hext1, hall1⟩ := download_single_plugin_mem hsingle
          obtain ⟨hall, ext2, hext2, hsub2⟩ := ih h
          refine ⟨?_, ext1 ++ ext2, ?_, ?_⟩
          · intro d' hd'
            rcases List.mem_cons.mp hd' with rfl | hd''
            · rw [hext2]; exact List.mem_append_left _ hd1
            · exact hall d' hd''
          · rw [hext2, hext1, List.append_assoc]
          · intro x hx
            rcases List.mem_append.mp hx with hx1 | hx2
            · exact (hall1 x hx1) ▸ List.mem_cons_self _ _
            · exact List.mem_cons_of_mem _ (hsub2 x hx2)

lemma downloadDeps_all_skip {cat : Catalog} {net : Nat → AttemptSpec}
    {nMirrors fuel : Nat} :
    ∀ {deps : List String} {st : OrchState},
      (∀ d ∈ deps, d ∈ st.downloaded) →
      downloadDeps cat net nMirrors fuel deps st = some (.ok st) := by
  intro deps
  induction deps with
  | nil => intro st _; rfl
  | cons d rest ih =>
    intro st hall
    rw [downloadDeps]
    simp only [hall d (List.mem_cons_self _ _), if_true]
    exact ih fun d' hd' => hall d' (List.mem_cons_of_mem _ hd')

lemma download_plugin_ok_inv {cat : Catalog} {net : Nat → AttemptSpec}
    {nMirrors fuelD fuelR : Nat} {name : String} {st stR : OrchState}
    (h : download_plugin cat net nMirrors fuelD fuelR name st = some (.ok stR)) :
    ∃ p deps st', catFind cat name = some p ∧
      get_plugin_dependencies cat fuelR name = some deps ∧
      downloadDeps cat net nMirrors fuelD deps st = some (.ok st') ∧
      ((name ∈ st'.downloaded ∧ stR = st') ∨
       (name ∉ st'.downloaded ∧ ∃ f,
         download_single_plugin cat net nMirrors fuelD name st' [] =
           some (.ok (stR, f)))) := by
  rw [download_plugin] at h
  cases hfind : catFind cat name with
  | none => simp only [hfind] at h; simp at h
  | some p =>
    simp only [hfind] at h
    cases hdeps : get_plugin_dependencies cat fuelR name with
    | none => simp only [hdeps] at h; cases h
    | some deps =>
      simp only [hdeps] at h
      cases hdd : downloadDeps cat net nMirrors fuelD deps st with
      | none => simp only [hdd] at h; cases h
      | some r =>
        simp only [hdd] at h
        cases r with
        | error e => simp at h
        | ok st' =>
          refine ⟨p, deps, st', rfl, rfl, hdd, ?_⟩
          by_cases hmem : name ∈ st'.downloaded
          · simp only [hmem, if_true, Option.some_inj, Except.ok.injEq] at h
            exact Or.inl ⟨hmem, h.symm⟩
          · simp only [hmem, if_false] at h
            cases hsingle : download_single_plugin cat net nMirrors fuelD name st' [] with
            | none => simp only [hsingle] at h; cases h
            | some r' =>
              simp only [hsingle] at h
              cases r' with
              | error e => simp at h
              | ok pr =>
                obtain ⟨st'', f⟩ := pr
                simp only [Option.some_inj, Except.ok.injEq] at h
                exact Or.inr ⟨hmem, f, by rw [← h]⟩

/-- C7: in every successful `download_plugin` run whose root was not yet
materialized, every resolved dependency is recorded in `downloaded_plugins`
strictly before the root — the root is appended last (lines 78-86: the
dependency loop completes before the main plugin's download starts). -/
theorem C7_dependencies_before_root (cat : Catalog) (net : Nat → AttemptSpec)
    (nMirrors fuelD fuelR : Nat) (root : String) (st stR : OrchState)
    (deps : List String)
    (hrun : download_plugin cat net nMirrors fuelD fuelR root st = some (.ok stR))
    (hnew : root ∉ st.downloaded)
    (hdeps : get_plugin_dependencies cat fuelR root = some deps) :
    ∃ pre, stR.downloaded = pre ++ [root] ∧ ∀ d ∈ deps, d ∈ pre := by
  obtain ⟨p, deps', st', hfind, hdeps', hdd, hbranch⟩ := download_plugin_ok_inv hrun
  rw [hdeps] at hdeps'
  cases hdeps'
  have hroot_not : root ∉ deps := by
    intro hmem
    have hcyc := get_plugin_dependencies_sound fuelR root deps hdeps root hmem
    have hnone := cycle_divergence fuelR root hcyc
    rw [hnone] at hdeps
    cases hdeps
  obtain ⟨hall, ext, hext, hsub⟩ := downloadDeps_ok_inv hdd
  have hroot_st' : root ∉ st'.downloaded := by
    rw [hext]
    intro hmem
    rcases List.mem_append.mp hmem with h1 | h2
    · exact hnew h1
    · exact hroot_not (hsub root h2)
  rcases hbranch with ⟨hmem, _⟩ | ⟨_, f, hsingle⟩
  · exact absurd hmem hroot_st'
  · rcases download_single_plugin_ok_inv hsingle with ⟨hm, _, _⟩ | ⟨_, heq⟩
    · exact absurd hm hroot_st'
    · exact ⟨st'.downloaded, heq, hall⟩

/-- Witness for C7: on `catAB` with a healthy network, downloading `A`
completes with `downloaded_plugins = [B, A]`: the dependency `B` precedes
the root `A`, which lands last. -/
theorem C7_dependencies_before_root_witness :
    ∃ pre, (OrchState.downloaded ⟨0, ["B", "A"], 2⟩) = pre ++ ["A"] ∧
      ∀ d ∈ ["B"], d ∈ pre :=
  C7_dependencies_before_root catAB netGood numMirrors 2 2 "A" st0
    ⟨0, ["B", "A"], 2⟩ ["B"] rfl (by decide) rfl

/-- C8: a download step for an identifier already in `downloaded_plugins`
is a no-op — the early return of lines 100-101 fires before the catalog
read, before any GET and before the file is opened, for every network
behaviour and fuel, and leaves the state (mirror index, downloaded set,
attempt counter) unchanged with no file written; consequently a second
`download_plugin` run for an already-materialized root (with the same
resolution budget) returns its state unchanged. -/
theorem C8_already_downloaded_noop (cat : Catalog) (net net2 : Nat → AttemptSpec)
    (nMirrors fuelD fuelD2 fuelR : Nat) (name : String)
    (stU st stR : OrchState) (file0 : List Nat) :
    (name ∈ stU.downloaded →
      download_single_plugin cat net nMirrors fuelD name stU file0 =
        some (.ok (stU, none))) ∧
    (download_plugin cat net nMirrors fuelD fuelR name st = some (.ok stR) →
      download_plugin cat net2 nMirrors fuelD2 fuelR name stR = some (.ok stR)) := by
  constructor
  · intro hmem
    rw [download_single_plugin]
    simp [hmem]
  · intro hrun
    obtain ⟨p, deps, st', hfind, hdeps, hdd, hbranch⟩ := download_plugin_ok_inv hrun
    obtain ⟨hall, ext, hext, hsub⟩ := downloadDeps_ok_inv hdd
    have hfacts : name ∈ stR.downloaded ∧ ∀ d ∈ deps, d ∈ stR.downloaded := by
      rcases hbranch with ⟨hmem, rfl⟩ | ⟨_, f, hsingle⟩
      · exact ⟨hmem, hall⟩
      · obtain ⟨hm, ext2, hext2, _⟩ := download_single_plugin_mem hsingle
        refine ⟨hm, fun d hd => ?_⟩
        rw [hext2]
        exact List.mem_append_left _ (hall d hd)
    obtain ⟨hnm, hdall⟩ := hfacts
    rw [download_plugin, hfind, hdeps]
    simp only [downloadDeps_all_skip hdall, hnm, if_true]

/-- C9: a successful `_download_single_plugin` retry loop yields a file
that (a) does not depend on what the destination file held before — the
`open(..., 'wb')` of line 121 truncates on every attempt, so no prior
mirror's partial bytes survive into the result — and (b) consists exactly
of the chunk bytes received during the final (successful) GET, written
from offset 0. -/
theorem C9_file_from_final_attempt (net : Nat → AttemptSpec) (nMirrors : Nat) :
    ∀ (fuel : Nat) (st st' : OrchState) (f file0 : List Nat),
      downloadLoop net nMirrors fuel st file0 = some (.ok (st', f)) →
      (∀ file1, downloadLoop net nMirrors fuel st file1 = some (.ok (st', f))) ∧
      ∃ k contentLength chunks midFailure m,
        net k = .stream contentLength chunks midFailure ∧
        st.attempts ≤ k ∧ k + 1 = st'.attempts ∧
        f = (processChunks nMirrors chunks [] 0 m).1 := by
  intro fuel
  induction fuel with
  | zero => intro st st' f file0 h; cases h
  | succ fuel ih =>
    intro st st' f file0 h
    have hstep : ∀ (m2 : Nat) (gf : List Nat → List Nat),
        (∀ fl, runIter nMirrors (net st.attempts) st.mirrorIndex fl =
          .again m2 (gf fl)) →
        ((∀ file1, downloadLoop net nMirrors (fuel + 1) st file1 =
            some (.ok (st', f))) ∧
          ∃ k contentLength chunks midFailure m,
            net k = .stream contentLength chunks midFailure ∧
            st.attempts ≤ k ∧ k + 1 = st'.attempts ∧
            f = (processChunks nMirrors chunks [] 0 m).1) := by
      intro m2 gf hri
      have h' := h
      rw [downloadLoop] at h'
      simp only [hri] at h'
      obtain ⟨h1, k, cl, chunks, mf, m, hk, hle, hkatt, hf⟩ := ih _ _ _ _ h'
      refine ⟨?_, k, cl, chunks, mf, m, hk, Nat.le_of_succ_le hle, hkatt, hf⟩
      intro file1
      rw [downloadLoop]
      simp only [hri]
      exact h1 (gf file1)
    cases hspec : net st.attempts with
    | hardFailure =>
      rcases htm : try_next_mirror nMirrors st.mirrorIndex with ⟨m', ok⟩
      cases ok with
      | false =>
        have hri : runIter nMirrors (net st.attempts) st.mirrorIndex file0 =
            .fatal m' := by
          rw [hspec]; simp [runIter, htm]
        rw [downloadLoop] at h
        simp only [hri] at h
        simp at h
      | true =>
        refine hstep m' (fun fl => fl) ?_
        intro fl
        rw [hspec]
        simp [runIter, htm]
    | stream cl chunks mf =>
      rcases hpc : processChunks nMirrors chunks [] 0 st.mirrorIndex
        with ⟨pf, psize, pend⟩
      cases pend with
      | ended =>
        cases mf with
        | true =>
          rcases htm : try_next_mirror nMirrors st.mirrorIndex with ⟨m', ok⟩
          cases ok with
          | false =>
            have hri : runIter nMirrors (net st.attempts) st.mirrorIndex file0 =
                .fatal m' := by
              rw [hspec]; simp [runIter, hpc, htm]
            rw [downloadLoop] at h
            simp only [hri] at h
            simp at h
          | true =>
            refine hstep m' (fun _ => pf) ?_
            intro fl
            rw [hspec]
            simp [runIter, hpc, htm]
        | false =>
          by_cases hsz : psize = cl.getD 0
          · have hri : ∀ fl, runIter nMirrors (net st.attempts) st.mirrorIndex fl =
                .success st.mirrorIndex pf := by
              intro fl
              rw [hspec]
              simp [runIter, hpc, hsz]
            rw [downloadLoop] at h
            simp only [hri] at h
            simp only [Option.some_inj, Except.ok.injEq, Prod.mk.injEq] at h
            obtain ⟨hst, hff⟩ := h
            subst hst
            subst hff
            refine ⟨?_, st.attempts, cl, chunks, false, st.mirrorIndex, hspec,
              le_refl _, rfl, ?_⟩
            · intro file1
              rw [downloadLoop]
              simp only [hri]
            · rw [hpc]
          · refine hstep st.mirrorIndex (fun _ => pf) ?_
            intro fl
            rw [hspec]
            simp [runIter, hpc, hsz]
      | slowBreak m' =>
        by_cases hsz : psize = cl.getD 0
        · have hri : ∀ fl, runIter nMirrors (net st.attempts) st.mirrorIndex fl =
              .success m' pf := by
            intro fl
            rw [hspec]
            simp [runIter, hpc, hsz]
          rw [downloadLoop] at h
          simp only [hri] at h
          simp only [Option.some_inj, Except.ok.injEq, Prod.mk.injEq] at h
          obtain ⟨hst, hff⟩ := h
          subst hst
          subst hff
          refine ⟨?_, st.attempts, cl, chunks, mf, st.mirrorIndex, hspec,
            le_refl _, rfl, ?_⟩
          · intro file1
            rw [downloadLoop]
            simp only [hri]
          · rw [hpc]
        · refine hstep m' (fun _ => pf) ?_
          intro fl
          rw [hspec]
          simp [runIter, hpc, hsz]
      | slowRaise m0 =>
        rcases htm : try_next_mirror nMirrors m0 with ⟨m', ok⟩
        cases ok with
        | false =>
          have hri : runIter nMirrors (net st.attempts) st.mirrorIndex file0 =
              .fatal m' := by
            rw [hspec]; simp [runIter, hpc, htm]
          rw [downloadLoop] at h
          simp only [hri] at h
          simp at h
        | true =>
          refine hstep m' (fun _ => pf) ?_
          intro fl
          rw [hspec]
          simp [runIter, hpc, htm]

/-- Witness for C8: after the successful run on `catAB` that materialized
`B` then `A`, re-invoking the single-plugin step for `A` and re-invoking
the whole orchestration for `A` both leave the state untouched. -/
theorem C8_already_downloaded_noop_witness :
    download_single_plugin catAB netGood numMirrors 2 "A" ⟨0, ["B", "A"], 2⟩ [] =
      some (.ok (⟨0, ["B", "A"], 2⟩, none)) ∧
    download_plugin catAB netGood numMirrors 2 2 "A" ⟨0, ["B", "A"], 2⟩ =
      some (.ok ⟨0, ["B", "A"], 2⟩) :=
  ⟨(C8_already_downloaded_noop catAB netGood netGood numMirrors 2 2 2 "A"
      ⟨0, ["B", "A"], 2⟩ st0 ⟨0, ["B", "A"], 2⟩ []).1 (by decide),
   (C8_already_downloaded_noop catAB netGood netGood numMirrors 2 2 2 "A"
      ⟨0, ["B", "A"], 2⟩ st0 ⟨0, ["B", "A"], 2⟩ []).2 rfl⟩

/-- Witness for C9: a concrete one-attempt success over `netGood`, started
with stale bytes `[9, 9]` in the destination file, ends with the file equal
to exactly the final attempt's three received bytes. -/
theorem C9_file_from_final_attempt_witness :
    (∀ file1, downloadLoop netGood numMirrors 1 st0 file1 =
      some (.ok (⟨0, [], 1⟩, [7, 7, 7]))) ∧
    ∃ k contentLength chunks midFailure m,
      netGood k = .stream contentLength chunks midFailure ∧
      st0.attempts ≤ k ∧ k + 1 = 1 ∧
      [7, 7, 7] = (processChunks numMirrors chunks [] 0 m).1 :=
  C9_file_from_final_attempt netGood numMirrors 1 st0 ⟨0, [], 1⟩ [7, 7, 7] [9, 9] rfl
